import Mathlib

/-!
Shallow embedding of the wallet / identity logic of `src/app.jsx`
("Nickt Lite", a simulated cloud-mining demo app).

Numbers that the source keeps as JavaScript numbers are modelled as exact
rationals (`ℚ`); timestamps (`Date.now()` milliseconds) are modelled as
integers (`ℤ`).  Persistent storage (`localStorage`) is modelled as a map
from string keys to values; React state plus the per-user wallet records
are collected into an explicit `AppState`.
-/

namespace NicktLite

/-- Wallet record, as initialised in `app.jsx` (fields `balance`,
`totalMined`, `lastBonus`, `hashrate`, `mining`, `boosts`). -/
structure Wallet where
  balance : ℚ
  totalMined : ℚ
  lastBonus : ℤ
  hashrate : ℚ
  mining : Bool
  boosts : ℚ
deriving DecidableEq

/-- The zeroed default wallet written at registration and used as the
`read` default (`app.jsx` lines 132–139, 195–202). -/
def initWallet : Wallet :=
  { balance := 0, totalMined := 0, lastBonus := 0, hashrate := 12.5
    mining := false, boosts := 1 }

/-- State of the `useMiner` hook: the "last observed time" cursor
(`lastRef`, milliseconds) and the accumulated `earned` counter. -/
structure MinerState where
  last : ℤ
  earned : ℚ
deriving DecidableEq

/-- The accrual rate: `(baseHash * boost) / 1_000_000_000` (`app.jsx`
line 66). -/
def minerRate (baseHash boost : ℚ) : ℚ := baseHash * boost / 1000000000

/-- One firing of the `useMiner` interval (`app.jsx` lines 62–68):
`dt = (tnow - last) / 1000` seconds, the cursor advances to `tnow`, and
`earned` grows by `dt * rate`. -/
def minerTick (baseHash boost : ℚ) (s : MinerState) (tnow : ℤ) : MinerState :=
  { last := tnow
    earned := s.earned + ((tnow - s.last : ℤ) : ℚ) / 1000 * minerRate baseHash boost }

/-- One firing of the balance-flush interval (`app.jsx` lines 162–172):
`add = earned` and both `balance` and `totalMined` grow by `add`.  Note the
source never resets `earned` after a flush. -/
def flushTick (w : Wallet) (earned : ℚ) : Wallet :=
  { w with balance := w.balance + earned, totalMined := w.totalMined + earned }

/-- The Withdraw button handler (`app.jsx` line 445):
`setWallet({ ...wallet, balance: 0 })`. -/
def withdraw (w : Wallet) : Wallet := { w with balance := 0 }

/-- Milliseconds in 24 hours, the `DAY` constant of `claimDaily`. -/
def DAY : ℤ := 24 * 60 * 60 * 1000

/-- Failure of a daily-bonus claim: the "Tunggu {h}j {m}m lagi" alert,
carrying the computed whole hours and leftover minutes. -/
inductive ClaimError where
  | tooSoon (hoursLeft minutesLeft : ℕ)
deriving DecidableEq

/-- The daily-bonus claim (`app.jsx` lines 232–242, duplicated verbatim in
the Dashboard button handler, lines 455–466).  If less than `DAY` ms have
passed since `lastBonus` it alerts with the remaining hours/minutes and
changes nothing; otherwise it sets `lastBonus := now` and adds `0.005` to
`balance`.  `Math.floor` on the (positive) remainder is ℕ-division. -/
def claimDaily (w : Wallet) (tnow : ℤ) : Except ClaimError Wallet :=
  if tnow - w.lastBonus < DAY then
    let left := (DAY - (tnow - w.lastBonus)).toNat
    .error (.tooSoon (left / 3600000) (left % 3600000 / 60000))
  else
    .ok { w with lastBonus := tnow, balance := w.balance + 5 / 1000 }

/-- The claim handler as a state step: on the alert path `setWallet` is
never called, so the wallet is returned unchanged together with the error. -/
def claimStep (w : Wallet) (tnow : ℤ) : Wallet × Option ClaimError :=
  match claimDaily w tnow with
  | .ok w2 => (w2, none)
  | .error e => (w, some e)

/-- Per-character lower-casing, the embedding of JavaScript
`String.prototype.toLowerCase` as used for case-insensitive email
comparison (ASCII-faithful, like Lean's own mapping). -/
def lowerStr (s : String) : String := String.mk (s.data.map Char.toLower)

/-- User record created by `handleRegister` (`app.jsx` line 191). -/
structure User where
  id : String
  name : String
  email : String
  referrer : Option String
  createdAt : ℤ
deriving DecidableEq

/-- The application state the handlers read and write: the `users` list,
the current `session` (a user id, or none), and the per-user wallet
records keyed by user id (the `wallet.<uid>` localStorage keys). -/
structure AppState where
  users : List User
  session : Option String
  wallets : String → Option Wallet

/-- Registration failures: the "Lengkapi semua field." and "Email sudah
terdaftar." alerts. -/
inductive RegError where
  | missingField
  | duplicateEmail
deriving DecidableEq

/-- Login failures: the "Masukkan email." and "Akun tidak ditemukan."
alerts. -/
inductive LoginError where
  | emptyEmail
  | notFound
deriving DecidableEq

/-- Case-insensitive duplicate-email test (`app.jsx` line 188):
`users.some((u) => u.email.toLowerCase() === email.toLowerCase())`. -/
def emailTaken (users : List User) (email : String) : Bool :=
  users.any (fun u => lowerStr u.email = lowerStr email)

/-- Referral-match predicate (`app.jsx` line 205):
`u.name === ref || u.email === ref || u.id === ref`. -/
def matchesRef (r : String) (u : User) : Bool :=
  u.name = r || u.email = r || u.id = r

/-- The user record built at `app.jsx` line 191:
`{ id, name, email, referrer: ref || null, createdAt: now() }`. -/
def mkUser (id name email r : String) (t : ℤ) : User :=
  { id := id, name := name, email := email
    referrer := if r = "" then none else some r, createdAt := t }

/-- The referral reward block (`app.jsx` lines 203–212): if a referral
string was supplied, look up the first user in the post-registration list
whose name, email or id equals it exactly, and add `0.01` to that user's
wallet balance.  The `getD` default mirrors `read(wk, null) || {balance: 0}`:
the source object holds only `balance`, and the remaining fields, absent
there, are rendered as zero/false here; every registered user's wallet is
written at registration, so that branch is not reached in the states the
theorems below quantify over. -/
def applyReferral (ws : String → Option Wallet) (users : List User) (r : String) :
    String → Option Wallet :=
  if r = "" then ws
  else
    match users.find? (fun u => matchesRef r u) with
    | none => ws
    | some refUser =>
      let rw := (ws refUser.id).getD
        { balance := 0, totalMined := 0, lastBonus := 0, hashrate := 0
          mining := false, boosts := 0 }
      fun k => if k = refUser.id then some { rw with balance := rw.balance + 1 / 100 }
               else ws k

/-- The registration handler (`app.jsx` lines 180–214).  Inputs are the
extracted form values (the source trims `name`, `email` and `ref` on
extraction; the parameters here stand for those already-trimmed values,
while `pass` is taken verbatim as in the source).  `id` is the fresh
`uid()` and `t` the current time.  Checks the missing-field and
duplicate-email guards, then appends the new user, opens a session for the
new id, writes a zeroed wallet under the new id, and runs the referral
reward block over the extended user list. -/
def handleRegister (st : AppState) (name email pass r id : String) (t : ℤ) :
    Except RegError AppState :=
  if name = "" || email = "" || pass = "" then .error .missingField
  else if emailTaken st.users email then .error .duplicateEmail
  else
    let newUser := mkUser id name email r t
    let newUsers := st.users ++ [newUser]
    let wallets1 := fun k => if k = id then some initWallet else st.wallets k
    .ok { users := newUsers, session := some id
          wallets := applyReferral wallets1 newUsers r }

/-- The registration handler as a state step: on an alert path no state
setter runs, so the state is returned unchanged together with the error. -/
def registerStep (st : AppState) (name email pass r id : String) (t : ℤ) :
    AppState × Option RegError :=
  match handleRegister st name email pass r id t with
  | .ok st2 => (st2, none)
  | .error e => (st, some e)

/-- The login handler (`app.jsx` lines 216–225): rejects an empty email,
otherwise finds the first user with a case-insensitively equal email and
opens a session for that user's id. -/
def handleLogin (st : AppState) (email : String) : Except LoginError AppState :=
  if email = "" then .error .emptyEmail
  else
    match st.users.find? (fun u => lowerStr u.email = lowerStr email) with
    | none => .error .notFound
    | some u => .ok { st with session := some u.id }

/-- The login handler as a state step: alert paths leave state unchanged. -/
def loginStep (st : AppState) (email : String) : AppState × Option LoginError :=
  match handleLogin st email with
  | .ok st2 => (st2, none)
  | .error e => (st, some e)

/-- The storage read helper (`app.jsx` lines 46–53):
`const v = localStorage.getItem(k); return v ? JSON.parse(v) : d`, with any
parse exception caught and mapped to the default.  `store` models
`localStorage` (absent keys read as `null`), and `parse` models
`JSON.parse` as a partial function (`none` = the call throws).  A missing
key or the empty string is falsy and yields the default directly. -/
def readKV {V : Type} (parse : String → Option V) (store : String → Option String)
    (k : String) (d : V) : V :=
  match store k with
  | none => d
  | some s =>
    if s = "" then d
    else
      match parse s with
      | some v => v
      | none => d

/-- Wallet-mutating operations reachable from the UI, for the wallet
invariant: a balance-flush tick, a daily-bonus claim at time `t`, the
withdraw button, the mining toggle, and a referral-bonus credit. -/
inductive Op where
  | flush (e : ℚ)
  | claim (t : ℤ)
  | withdrawal
  | setMining (b : Bool)
  | refBonus
deriving DecidableEq

/-- Apply one UI operation to a wallet, each case delegating to the
corresponding handler embedding. -/
def applyOp (w : Wallet) : Op → Wallet
  | .flush e => flushTick w e
  | .claim t => (claimStep w t).1
  | .withdrawal => withdraw w
  | .setMining b => { w with mining := b }
  | .refBonus => { w with balance := w.balance + 1 / 100 }

/-- Run a sequence of UI operations from a starting wallet. -/
def runOps (w : Wallet) (ops : List Op) : Wallet := ops.foldl applyOp w

/-! ## Theorems -/

/-- At the miner level the "last observed time" cursor does advance
atomically with the computation: two consecutive ticks accrue exactly what
one tick over the combined interval accrues. -/
theorem minerTick_additive (h b : ℚ) (s : MinerState) (t1 t2 : ℤ) :
    minerTick h b (minerTick h b s t1) t2 =
      { last := t2
        earned := s.earned + ((t2 - s.last : ℤ) : ℚ) / 1000 * minerRate h b } := by
  simp only [minerTick, MinerState.mk.injEq, true_and]
  push_cast
  ring

/-- Claim C1: after mining for 3 seconds (one miner tick, hashrate 12.5,
boost 1) the earned counter holds the accrual for that interval, but the
balance-flush tick adds the cumulative `earned` without consuming it, so
two flush firings credit the 3-second interval twice: balance and
totalMined end at twice the single-interval accrual
`d * hashrate * boosts * rate_constant`. -/
theorem flushTick_double_counts :
    (minerTick 12.5 1 ⟨0, 0⟩ 3000).earned = 3 * minerRate 12.5 1 ∧
    (flushTick (flushTick initWallet (minerTick 12.5 1 ⟨0, 0⟩ 3000).earned)
        (minerTick 12.5 1 ⟨0, 0⟩ 3000).earned).balance = 2 * (3 * minerRate 12.5 1) ∧
    (flushTick (flushTick initWallet (minerTick 12.5 1 ⟨0, 0⟩ 3000).earned)
        (minerTick 12.5 1 ⟨0, 0⟩ 3000).earned).totalMined = 2 * (3 * minerRate 12.5 1) ∧
    2 * (3 * minerRate 12.5 1) ≠ (3 : ℚ) * minerRate 12.5 1 := by
  refine ⟨?_, ?_, ?_, ?_⟩ <;> norm_num [flushTick, minerTick, minerRate, initWallet]

/-- Claim C6: withdraw succeeds unconditionally, zeroes the balance and
leaves totalMined, lastBonus, hashrate, mining and boosts unchanged. -/
theorem withdraw_spec (w : Wallet) :
    withdraw w = { balance := 0, totalMined := w.totalMined, lastBonus := w.lastBonus
                   hashrate := w.hashrate, mining := w.mining, boosts := w.boosts } := rfl

/-- Claim C2: a daily-bonus claim fails exactly when less than 24 hours
have passed since `lastBonus`; on failure the wallet is unchanged and the
error carries the remaining wait decomposed into whole hours and leftover
minutes (minutes below 60, and the pair bounding the remaining wait to
within one minute); otherwise — including at exactly 24 hours, and with
`lastBonus` still 0 — it succeeds, setting `lastBonus` to the current time
and adding exactly 0.005 to the balance with every other field unchanged. -/
theorem claimDaily_spec (w : Wallet) (t : ℤ) :
    (t - w.lastBonus < DAY →
      (claimStep w t).1 = w ∧
      ∃ hL mL : ℕ, (claimStep w t).2 = some (.tooSoon hL mL) ∧ mL < 60 ∧
        (((hL * 60 + mL) * 60000 : ℕ) : ℤ) ≤ DAY - (t - w.lastBonus) ∧
        DAY - (t - w.lastBonus) < (((hL * 60 + mL + 1) * 60000 : ℕ) : ℤ)) ∧
    (DAY ≤ t - w.lastBonus →
      claimStep w t =
        ({ balance := w.balance + 5 / 1000, totalMined := w.totalMined, lastBonus := t
           hashrate := w.hashrate, mining := w.mining, boosts := w.boosts }, none)) := by
  constructor
  · intro h
    have hstep : claimStep w t =
        (w, some (.tooSoon ((DAY - (t - w.lastBonus)).toNat / 3600000)
                  ((DAY - (t - w.lastBonus)).toNat % 3600000 / 60000))) := by
      simp [claimStep, claimDaily, if_pos h]
    refine ⟨by rw [hstep], (DAY - (t - w.lastBonus)).toNat / 3600000,
      (DAY - (t - w.lastBonus)).toNat % 3600000 / 60000, by rw [hstep], ?_, ?_, ?_⟩ <;> omega
  · intro h
    have hn : ¬ (t - w.lastBonus < DAY) := not_lt.mpr h
    simp [claimStep, claimDaily, if_neg hn]

/-- Concrete run of `claimDaily_spec`: claiming on a fresh wallet at time 0
fails and leaves the wallet alone; claiming at exactly 24 hours succeeds
and adds 0.005. -/
theorem claimDaily_spec_witness :
    (claimStep initWallet 0).1 = initWallet ∧
    claimStep initWallet DAY =
      ({ balance := initWallet.balance + 5 / 1000, totalMined := initWallet.totalMined
         lastBonus := DAY, hashrate := initWallet.hashrate, mining := initWallet.mining
         boosts := initWallet.boosts }, none) := by
  constructor
  · exact ((claimDaily_spec initWallet 0).1 (by decide)).1
  · exact (claimDaily_spec initWallet DAY).2 (by decide)

/-- Claim C9: a store read returns the parsed stored value when a
well-formed (hence non-empty) record text is present under the key, and
silently returns the supplied default when the key is absent or the stored
text does not parse. -/
theorem readKV_spec {V : Type} (parse : String → Option V) (store : String → Option String)
    (k : String) (d : V) :
    (store k = none → readKV parse store k d = d) ∧
    (∀ s, store k = some s → parse s = none → readKV parse store k d = d) ∧
    (∀ s v, store k = some s → s ≠ "" → parse s = some v → readKV parse store k d = v) := by
  refine ⟨?_, ?_, ?_⟩
  · intro h
    simp [readKV, h]
  · intro s hs hp
    simp [readKV, hs, hp]
  · intro s v hs hne hp
    simp [readKV, hs, if_neg hne, hp]

/-- Fixed sample parser for the `readKV_spec` witness. -/
def parseW : String → Option ℕ := fun s => if s = "rec" then some 1 else none

/-- Fixed sample store for the `readKV_spec` witness: key "a" holds
well-formed text, key "b" holds unparseable text. -/
def storeW : String → Option String :=
  fun k => if k = "a" then some "rec" else if k = "b" then some "bad" else none

/-- Concrete run of `readKV_spec`: a missing key and a corrupt value fall
back to the default 7, a well-formed value is returned. -/
theorem readKV_spec_witness :
    readKV parseW storeW "zz" 7 = 7 ∧
    readKV parseW storeW "b" 7 = 7 ∧
    readKV parseW storeW "a" 7 = 1 := by
  refine ⟨(readKV_spec parseW storeW "zz" 7).1 (by decide),
    (readKV_spec parseW storeW "b" 7).2.1 "bad" (by decide) (by decide),
    (readKV_spec parseW storeW "a" 7).2.2 "rec" 1 (by decide) (by decide) (by decide)⟩

/-- Fixed one-user state for the login theorems. -/
def stLogin : AppState :=
  { users := [{ id := "u1", name := "alice", email := "a@b", referrer := none, createdAt := 0 }]
    session := none
    wallets := fun _ => none }

/-- Claim C7 counterexample: with the empty email, no registered user's
email matches it case-insensitively, so the claim demands a NotFound
failure — but the handler rejects the empty email with the dedicated
missing-email alert instead. -/
theorem login_empty_email_cex :
    (∀ u ∈ stLogin.users, lowerStr u.email ≠ lowerStr "") ∧
    (loginStep stLogin "").2 = some .emptyEmail ∧
    (loginStep stLogin "").2 ≠ some .notFound := by
  refine ⟨by decide, rfl, by decide⟩

/-- Claim C7 (amended): an empty login email fails with the dedicated
missing-email alert; otherwise, when no registered user's email equals the
given one case-insensitively, login fails with NotFound; in both failure
cases the state (hence the session) is unchanged; otherwise the session is
set to the first case-insensitively matching user's id. -/
theorem login_spec (st : AppState) (email : String) :
    (email = "" → loginStep st email = (st, some .emptyEmail)) ∧
    (email ≠ "" → (∀ u ∈ st.users, lowerStr u.email ≠ lowerStr email) →
      loginStep st email = (st, some .notFound)) ∧
    (∀ u, email ≠ "" →
      st.users.find? (fun x => lowerStr x.email = lowerStr email) = some u →
      loginStep st email = ({ st with session := some u.id }, none)) := by
  refine ⟨?_, ?_, ?_⟩
  · intro h
    simp [loginStep, handleLogin, if_pos h]
  · intro h hall
    have hfind : st.users.find? (fun x => lowerStr x.email = lowerStr email) = none := by
      rw [List.find?_eq_none]
      intro u hu
      simpa using hall u hu
    simp [loginStep, handleLogin, if_neg h, hfind]
  · intro u h hfind
    simp [loginStep, handleLogin, if_neg h, hfind]

/-- Concrete run of `login_spec`: empty email and unknown email fail and
leave the state unchanged; a registered email found with different casing
opens a session for that user. -/
theorem login_spec_witness :
    loginStep stLogin "" = (stLogin, some .emptyEmail) ∧
    loginStep stLogin "z@z" = (stLogin, some .notFound) ∧
    loginStep stLogin "A@B" = ({ stLogin with session := some "u1" }, none) := by
  refine ⟨(login_spec stLogin "").1 rfl,
    (login_spec stLogin "z@z").2.1 (by decide) (by decide),
    (login_spec stLogin "A@B").2.2 ⟨"u1", "alice", "a@b", none, 0⟩ (by decide) (by decide)⟩

/-- A `find?` with a unique satisfying element returns that element. -/
theorem find?_eq_some_of_unique {α : Type} {p : α → Bool} {l : List α} {u : α}
    (hu : u ∈ l) (hp : p u = true) (huniq : ∀ v ∈ l, p v = true → v = u) :
    l.find? p = some u := by
  induction l with
  | nil => cases hu
  | cons a t ih =>
    by_cases ha : p a = true
    · rw [List.find?_cons_of_pos _ ha, huniq a (by simp) ha]
    · rw [List.find?_cons_of_neg _ ha]
      rcases List.mem_cons.mp hu with rfl | h
      · exact absurd hp ha
      · exact ih h (fun v hv hpv => huniq v (List.mem_cons_of_mem a hv) hpv)

/-- If the referral string is empty or matches nobody, the reward block
leaves the wallet store untouched. -/
theorem applyReferral_skip (ws : String → Option Wallet) (users : List User) (r : String)
    (h : r = "" ∨ users.find? (fun u => matchesRef r u) = none) :
    applyReferral ws users r = ws := by
  rcases h with h | h
  · simp [applyReferral, h]
  · by_cases hr : r = ""
    · simp [applyReferral, hr]
    · simp [applyReferral, if_neg hr, h]

/-- If the referral string is non-empty, `refU` is the first match in the
user list, and `refU` holds wallet `wOld`, the reward block writes back
`wOld` with 0.01 more balance under `refU.id` and touches no other key. -/
theorem applyReferral_credit (ws : String → Option Wallet) (users : List User) (r : String)
    (refU : User) (wOld : Wallet) (hr : r ≠ "")
    (hfind : users.find? (fun u => matchesRef r u) = some refU)
    (hw : ws refU.id = some wOld) :
    applyReferral ws users r =
      fun k => if k = refU.id then some { wOld with balance := wOld.balance + 1 / 100 }
               else ws k := by
  simp [applyReferral, if_neg hr, hfind, hw]

/-- With all three fields present and the email not yet taken, registration
reaches the success branch: user appended, session opened, zero wallet
written under the fresh id, referral block applied on top. -/
theorem handleRegister_ok (st : AppState) (name email pass r id : String) (t : ℤ)
    (hname : name ≠ "") (hemail : email ≠ "") (hpass : pass ≠ "")
    (hdup : emailTaken st.users email = false) :
    handleRegister st name email pass r id t =
      .ok { users := st.users ++ [mkUser id name email r t]
            session := some id
            wallets := applyReferral
              (fun k => if k = id then some initWallet else st.wallets k)
              (st.users ++ [mkUser id name email r t]) r } := by
  simp [handleRegister, hname, hemail, hpass, hdup]

/-- Claim C3: when the referral code is the unique exact match for an
existing (other) user whose wallet is `wOld`, registration credits exactly
0.01 to that user's balance, leaving totalMined (and all other fields) as
in `wOld`; and when the code matches nobody in the post-registration list,
registration still succeeds and no wallet under any key other than the new
id changes. -/
theorem referral_reward_spec (st : AppState) (name email pass r id : String) (t : ℤ)
    (hname : name ≠ "") (hemail : email ≠ "") (hpass : pass ≠ "")
    (hdup : emailTaken st.users email = false) :
    (∀ u wOld, u ∈ st.users → matchesRef r u = true →
      (∀ v ∈ st.users, matchesRef r v = true → v = u) →
      r ≠ "" → u.id ≠ id → st.wallets u.id = some wOld →
      ∃ st2, handleRegister st name email pass r id t = .ok st2 ∧
        st2.wallets u.id = some { wOld with balance := wOld.balance + 1 / 100 }) ∧
    ((st.users ++ [mkUser id name email r t]).find? (fun v => matchesRef r v) = none →
      ∃ st2, handleRegister st name email pass r id t = .ok st2 ∧
        ∀ k, k ≠ id → st2.wallets k = st.wallets k) := by
  constructor
  · intro u wOld hu hmatch huniq hr hid hw
    refine ⟨_, handleRegister_ok st name email pass r id t hname hemail hpass hdup, ?_⟩
    have h1 : st.users.find? (fun v => matchesRef r v) = some u :=
      find?_eq_some_of_unique hu hmatch huniq
    have hfind : (st.users ++ [mkUser id name email r t]).find? (fun v => matchesRef r v)
        = some u := by
      rw [List.find?_append, h1]
      rfl
    have hw1 : (fun k => if k = id then some initWallet else st.wallets k) u.id
        = some wOld := by
      simp [if_neg hid, hw]
    rw [applyReferral_credit _ _ _ u wOld hr hfind hw1]
    simp
  · intro hnone
    refine ⟨_, handleRegister_ok st name email pass r id t hname hemail hpass hdup, ?_⟩
    intro k hk
    rw [applyReferral_skip _ _ _ (Or.inr hnone)]
    simp [if_neg hk]

/-- Fixed existing user for the referral witnesses. -/
def aliceU : User :=
  { id := "u1", name := "alice", email := "a@b", referrer := none, createdAt := 0 }

/-- Fixed one-user state for the `referral_reward_spec` witness. -/
def stRef : AppState :=
  { users := [aliceU], session := none
    wallets := fun k => if k = "u1" then some initWallet else none }

/-- Concrete run of `referral_reward_spec`: registering "bob" with code
"alice" credits alice's wallet 0.01; registering with unmatched code "zzz"
changes no wallet but the new one. -/
theorem referral_reward_witness :
    (∃ st2, handleRegister stRef "bob" "b@c" "pw" "alice" "u2" 5 = .ok st2 ∧
      st2.wallets "u1" = some { initWallet with balance := initWallet.balance + 1 / 100 }) ∧
    (∃ st2, handleRegister stRef "bob" "b@c" "pw" "zzz" "u2" 5 = .ok st2 ∧
      ∀ k, k ≠ "u2" → st2.wallets k = stRef.wallets k) := by
  constructor
  · exact (referral_reward_spec stRef "bob" "b@c" "pw" "alice" "u2" 5 (by decide) (by decide)
      (by decide) (by decide)).1 aliceU initWallet (by decide) (by decide) (by decide)
      (by decide) (by decide) rfl
  · exact (referral_reward_spec stRef "bob" "b@c" "pw" "zzz" "u2" 5 (by decide) (by decide)
      (by decide) (by decide)).2 (by decide)

/-- Claim C10: the referral bonus goes to exactly one wallet — that of the
first user matching the code in the post-registration list (registration
order) — and every wallet under any other key (besides the fresh id whose
zero wallet registration itself writes) is unchanged. -/
theorem referral_first_match_spec (st : AppState) (name email pass r id : String) (t : ℤ)
    (refU : User) (wOld : Wallet)
    (hname : name ≠ "") (hemail : email ≠ "") (hpass : pass ≠ "")
    (hdup : emailTaken st.users email = false) (hr : r ≠ "")
    (hfind : (st.users ++ [mkUser id name email r t]).find? (fun v => matchesRef r v)
      = some refU)
    (hid : refU.id ≠ id) (hw : st.wallets refU.id = some wOld) :
    ∃ st2, handleRegister st name email pass r id t = .ok st2 ∧
      st2.wallets refU.id = some { wOld with balance := wOld.balance + 1 / 100 } ∧
      ∀ k, k ≠ refU.id → k ≠ id → st2.wallets k = st.wallets k := by
  have hw1 : (fun k => if k = id then some initWallet else st.wallets k) refU.id
      = some wOld := by
    simp [if_neg hid, hw]
  refine ⟨_, handleRegister_ok st name email pass r id t hname hemail hpass hdup, ?_, ?_⟩
  · rw [applyReferral_credit _ _ _ refU wOld hr hfind hw1]
    simp
  · intro k hk1 hk2
    rw [applyReferral_credit _ _ _ refU wOld hr hfind hw1]
    simp [if_neg hk1, if_neg hk2]

/-- Second fixed user sharing the name "alice", for the multi-match
witness. -/
def aliceU2 : User :=
  { id := "u2", name := "alice", email := "c@d", referrer := none, createdAt := 1 }

/-- Two registered users share the name "alice"; both hold wallets. -/
def stMulti : AppState :=
  { users := [aliceU, aliceU2], session := none
    wallets := fun k =>
      if k = "u1" then some initWallet else if k = "u2" then some initWallet else none }

/-- Concrete run of `referral_first_match_spec`: with two users named
"alice", registering with code "alice" credits the earlier one ("u1") and
leaves every other key — in particular "u2" — unchanged. -/
theorem referral_first_match_witness :
    ∃ st2, handleRegister stMulti "bob" "b@c" "pw" "alice" "u3" 5 = .ok st2 ∧
      st2.wallets "u1" = some { initWallet with balance := initWallet.balance + 1 / 100 } ∧
      ∀ k, k ≠ "u1" → k ≠ "u3" → st2.wallets k = stMulti.wallets k :=
  referral_first_match_spec stMulti "bob" "b@c" "pw" "alice" "u3" 5 aliceU initWallet
    (by decide) (by decide) (by decide) (by decide) (by decide) (by decide) (by decide) rfl

/-- The empty initial state: no users, no session, no wallets. -/
def stEmpty : AppState := { users := [], session := none, wallets := fun _ => none }

/-- Wallet stored under key `k` after a registration attempt. -/
def walletAfter (res : Except RegError AppState) (k : String) : Option Wallet :=
  match res with
  | .ok st => st.wallets k
  | .error _ => none

/-- Claim C4 counterexample: on an empty user list, registering "alice"
with referral code "alice" — her own name — ends with the new user's own
wallet holding balance 0.01: the lookup runs over the list including the
just-created user and does not exclude her, so the bonus is credited to
the registrant's own wallet. -/
theorem self_referral_cex :
    walletAfter (handleRegister stEmpty "alice" "a@x" "pw" "alice" "u1" 0) "u1" =
      some { initWallet with balance := initWallet.balance + 1 / 100 } ∧
    initWallet.balance + 1 / 100 = 1 / 100 ∧ (1 : ℚ) / 100 ≠ 0 := by
  refine ⟨rfl, by norm_num [initWallet], by norm_num⟩

/-- Claim C4 (amended): the referral lookup runs over the user list with
the just-created user appended last.  Hence when some existing user is the
(unique) match the bonus cannot reach the new user's wallet, which stays
zeroed; but when no existing user matches and the code equals the new
user's own name, email, or id, the bonus is credited to the new user's own
wallet. -/
theorem referral_self_credit_spec (st : AppState) (name email pass r id : String) (t : ℤ)
    (hname : name ≠ "") (hemail : email ≠ "") (hpass : pass ≠ "")
    (hdup : emailTaken st.users email = false) (hr : r ≠ "") :
    ((∀ v ∈ st.users, matchesRef r v = false) →
      matchesRef r (mkUser id name email r t) = true →
      ∃ st2, handleRegister st name email pass r id t = .ok st2 ∧
        st2.wallets id = some { initWallet with balance := initWallet.balance + 1 / 100 }) ∧
    (∀ u wOld, u ∈ st.users → matchesRef r u = true →
      (∀ v ∈ st.users, matchesRef r v = true → v = u) → u.id ≠ id →
      st.wallets u.id = some wOld →
      ∃ st2, handleRegister st name email pass r id t = .ok st2 ∧
        st2.wallets id = some initWallet) := by
  constructor
  · intro hall hself
    refine ⟨_, handleRegister_ok st name email pass r id t hname hemail hpass hdup, ?_⟩
    have h0 : st.users.find? (fun v => matchesRef r v) = none := by
      rw [List.find?_eq_none]
      intro v hv
      simp [hall v hv]
    have hfind : (st.users ++ [mkUser id name email r t]).find? (fun v => matchesRef r v)
        = some (mkUser id name email r t) := by
      rw [List.find?_append, h0, Option.none_or, List.find?_cons_of_pos _ hself]
    have hw1 : (fun k => if k = id then some initWallet else st.wallets k)
        (mkUser id name email r t).id = some initWallet := by
      simp [mkUser]
    rw [applyReferral_credit _ _ _ (mkUser id name email r t) initWallet hr hfind hw1]
    simp [mkUser]
  · intro u wOld hu hmatch huniq hid hw
    refine ⟨_, handleRegister_ok st name email pass r id t hname hemail hpass hdup, ?_⟩
    have h1 : st.users.find? (fun v => matchesRef r v) = some u :=
      find?_eq_some_of_unique hu hmatch huniq
    have hfind : (st.users ++ [mkUser id name email r t]).find? (fun v => matchesRef r v)
        = some u := by
      rw [List.find?_append, h1]
      rfl
    have hw1 : (fun k => if k = id then some initWallet else st.wallets k) u.id
        = some wOld := by
      simp [if_neg hid, hw]
    rw [applyReferral_credit _ _ _ u wOld hr hfind hw1]
    have hne : id ≠ u.id := fun h => hid h.symm
    simp [if_neg hne]

/-- Concrete run of `referral_self_credit_spec`: self-referral on an empty
registry pays the registrant; with an existing unique match the new wallet
stays zeroed. -/
theorem referral_self_credit_witness :
    (∃ st2, handleRegister stEmpty "alice" "a@x" "pw" "alice" "u1" 0 = .ok st2 ∧
      st2.wallets "u1" = some { initWallet with balance := initWallet.balance + 1 / 100 }) ∧
    (∃ st2, handleRegister stRef "bob" "b@c" "pw" "alice" "u2" 5 = .ok st2 ∧
      st2.wallets "u2" = some initWallet) := by
  constructor
  · exact (referral_self_credit_spec stEmpty "alice" "a@x" "pw" "alice" "u1" 0 (by decide)
      (by decide) (by decide) (by decide) (by decide)).1 (by decide) (by decide)
  · exact (referral_self_credit_spec stRef "bob" "b@c" "pw" "alice" "u2" 5 (by decide)
      (by decide) (by decide) (by decide) (by decide)).2 aliceU initWallet (by decide)
      (by decide) (by decide) (by decide) rfl

/-- Claim C5: registration fails with the missing-field alert when name,
email or password is empty, and with the duplicate-email alert when some
registered user's email equals the given one case-insensitively — in both
cases the whole state is returned unchanged; otherwise it succeeds,
appending the new user, opening a session for the fresh id, and building
the final wallet map by applying the referral block to a map that holds
the zeroed wallet under the fresh id and every previous wallet unchanged. -/
theorem register_spec (st : AppState) (name email pass r id : String) (t : ℤ) :
    ((name = "" ∨ email = "" ∨ pass = "") →
      registerStep st name email pass r id t = (st, some .missingField)) ∧
    (name ≠ "" → email ≠ "" → pass ≠ "" →
      (∃ u ∈ st.users, lowerStr u.email = lowerStr email) →
      registerStep st name email pass r id t = (st, some .duplicateEmail)) ∧
    (name ≠ "" → email ≠ "" → pass ≠ "" →
      (∀ u ∈ st.users, lowerStr u.email ≠ lowerStr email) →
      ∃ st2, registerStep st name email pass r id t = (st2, none) ∧
        st2.users = st.users ++ [mkUser id name email r t] ∧
        st2.session = some id ∧
        ∃ ws1, ws1 id = some initWallet ∧ (∀ k, k ≠ id → ws1 k = st.wallets k) ∧
          st2.wallets = applyReferral ws1 (st.users ++ [mkUser id name email r t]) r) := by
  refine ⟨?_, ?_, ?_⟩
  · intro h
    have hreg : handleRegister st name email pass r id t = .error .missingField := by
      rcases h with h | h | h <;> simp [handleRegister, h]
    simp [registerStep, hreg]
  · intro h1 h2 h3 hdup
    have ht : emailTaken st.users email = true := by
      rw [emailTaken, List.any_eq_true]
      obtain ⟨u, hu, he⟩ := hdup
      exact ⟨u, hu, by simp [he]⟩
    have hreg : handleRegister st name email pass r id t = .error .duplicateEmail := by
      simp [handleRegister, h1, h2, h3, ht]
    simp [registerStep, hreg]
  · intro h1 h2 h3 hdup
    have hf : emailTaken st.users email = false := by
      rw [emailTaken, List.any_eq_false]
      intro u hu
      simp [hdup u hu]
    have hok := handleRegister_ok st name email pass r id t h1 h2 h3 hf
    refine ⟨{ users := st.users ++ [mkUser id name email r t], session := some id
              wallets := applyReferral
                (fun k => if k = id then some initWallet else st.wallets k)
                (st.users ++ [mkUser id name email r t]) r },
      by simp [registerStep, hok], rfl, rfl,
      fun k => if k = id then some initWallet else st.wallets k, by simp,
      fun k hk => by simp [if_neg hk], rfl⟩

/-- Fixed registered user whose email carries upper-case letters, for the
`register_spec` witness. -/
def carolU : User :=
  { id := "u9", name := "carol", email := "A@X", referrer := none, createdAt := 0 }

/-- Fixed one-user state for the `register_spec` witness. -/
def stDup : AppState :=
  { users := [carolU], session := none
    wallets := fun k => if k = "u9" then some initWallet else none }

/-- Concrete run of `register_spec`: empty email fails; email differing
from a registered one only in case fails as duplicate; a fresh email
succeeds with the described state. -/
theorem register_spec_witness :
    registerStep stDup "bob" "" "pw" "" "u2" 5 = (stDup, some .missingField) ∧
    registerStep stDup "bob" "a@x" "pw" "" "u2" 5 = (stDup, some .duplicateEmail) ∧
    (∃ st2, registerStep stDup "bob" "b@y" "pw" "" "u2" 5 = (st2, none) ∧
      st2.users = stDup.users ++ [mkUser "u2" "bob" "b@y" "" 5] ∧
      st2.session = some "u2" ∧
      ∃ ws1, ws1 "u2" = some initWallet ∧ (∀ k, k ≠ "u2" → ws1 k = stDup.wallets k) ∧
        st2.wallets = applyReferral ws1 (stDup.users ++ [mkUser "u2" "bob" "b@y" "" 5]) "") := by
  refine ⟨(register_spec stDup "bob" "" "pw" "" "u2" 5).1 (Or.inr (Or.inl rfl)),
    (register_spec stDup "bob" "a@x" "pw" "" "u2" 5).2.1 (by decide) (by decide) (by decide)
      (by decide),
    (register_spec stDup "bob" "b@y" "pw" "" "u2" 5).2.2 (by decide) (by decide) (by decide)
      (by decide)⟩

/-- A daily-bonus step either leaves the wallet unchanged (alert path) or
sets the new bonus timestamp and adds 0.005. -/
theorem claimStep_fst (w : Wallet) (t : ℤ) :
    (claimStep w t).1 = w ∨
    (claimStep w t).1 = { w with lastBonus := t, balance := w.balance + 5 / 1000 } := by
  by_cases h : t - w.lastBonus < DAY
  · left
    simp [claimStep, claimDaily, if_pos h]
  · right
    simp [claimStep, claimDaily, if_neg h]

/-- One UI operation whose flush amount (if any) is non-negative preserves
non-negativity of balance and totalMined. -/
theorem applyOp_nonneg (w : Wallet) (op : Op) (he : ∀ e : ℚ, op = Op.flush e → 0 ≤ e)
    (hb : 0 ≤ w.balance) (hm : 0 ≤ w.totalMined) :
    0 ≤ (applyOp w op).balance ∧ 0 ≤ (applyOp w op).totalMined := by
  cases op with
  | flush e =>
    have h0 := he e rfl
    exact ⟨add_nonneg hb h0, add_nonneg hm h0⟩
  | claim t =>
    rcases claimStep_fst w t with h | h <;> simp only [applyOp, h]
    · exact ⟨hb, hm⟩
    · exact ⟨add_nonneg hb (by norm_num), hm⟩
  | withdrawal => exact ⟨le_refl 0, hm⟩
  | setMining b => exact ⟨hb, hm⟩
  | refBonus => exact ⟨add_nonneg hb (by norm_num), hm⟩

/-- Non-negativity of balance and totalMined is preserved along any
operation sequence whose flush amounts are non-negative. -/
theorem runOps_nonneg (ops : List Op) : ∀ w : Wallet,
    (∀ e : ℚ, Op.flush e ∈ ops → 0 ≤ e) → 0 ≤ w.balance → 0 ≤ w.totalMined →
    0 ≤ (runOps w ops).balance ∧ 0 ≤ (runOps w ops).totalMined := by
  induction ops with
  | nil => exact fun w _ hb hm => ⟨hb, hm⟩
  | cons op t ih =>
    intro w hall hb hm
    have h1 := applyOp_nonneg w op
      (fun e he => hall e (by rw [he]; exact List.mem_cons_self _ _)) hb hm
    have h2 := ih (applyOp w op) (fun e he => hall e (List.mem_cons_of_mem _ he)) h1.1 h1.2
    simpa [runOps, List.foldl_cons] using h2

/-- Claim C8: every wallet reachable from the zeroed initial wallet by any
sequence of flush ticks (with non-negative earned amounts), daily-bonus
claims, withdrawals, mining toggles and referral credits has non-negative
balance and totalMined; and no single such operation ever decreases
totalMined. -/
theorem wallet_invariant_spec :
    (∀ ops : List Op, (∀ e : ℚ, Op.flush e ∈ ops → 0 ≤ e) →
      0 ≤ (runOps initWallet ops).balance ∧ 0 ≤ (runOps initWallet ops).totalMined) ∧
    (∀ (w : Wallet) (op : Op), (∀ e : ℚ, op = Op.flush e → 0 ≤ e) →
      w.totalMined ≤ (applyOp w op).totalMined) := by
  constructor
  · intro ops hall
    exact runOps_nonneg ops initWallet hall (by norm_num [initWallet]) (by norm_num [initWallet])
  · intro w op he
    cases op with
    | flush e => exact le_add_of_nonneg_right (he e rfl)
    | claim t => rcases claimStep_fst w t with h | h <;> simp only [applyOp, h] <;> exact le_refl _
    | withdrawal => exact le_refl _
    | setMining b => exact le_refl _
    | refBonus => exact le_refl _

/-- Concrete run of `wallet_invariant_spec`: a five-operation session
(start mining, flush an earned amount, claim the bonus, withdraw, receive
a referral credit) keeps both amounts non-negative, and a flush never
lowers totalMined. -/
theorem wallet_invariant_witness :
    (0 ≤ (runOps initWallet [Op.setMining true, Op.flush (3 / 80000000), Op.claim DAY,
        Op.withdrawal, Op.refBonus]).balance ∧
     0 ≤ (runOps initWallet [Op.setMining true, Op.flush (3 / 80000000), Op.claim DAY,
        Op.withdrawal, Op.refBonus]).totalMined) ∧
    initWallet.totalMined ≤ (applyOp initWallet (Op.flush 1)).totalMined := by
  constructor
  · refine wallet_invariant_spec.1 _ ?_
    intro e he
    simp only [List.mem_cons, List.not_mem_nil, or_false] at he
    rcases he with he | he | he | he | he <;> first
      | (injection he with he2; rw [he2]; norm_num)
      | exact absurd he (by simp)
  · refine wallet_invariant_spec.2 initWallet (Op.flush 1) ?_
    intro e he
    injection he with he2
    rw [← he2]
    norm_num

end NicktLite
